import Mathlib

/-!
Verification of the DGit storage engine specification against its source.

This file gives a shallow embedding, in Lean 4, of the parts of the DGit
storage engine that the checked claims are about:

* the commit strategy selector (`shouldUseLZ4`, `createSnapshot`,
  `getDeltaChainLength`, `shouldCreateNewSnapshot`) from the commit package;
* the structured-stream codec (the `FILE:path:size` record writer used by
  `compressWithLZ4` and the parser `parseStructuredDataToZip`);
* the snapshot writer validation in `compressWithLZ4`;
* version numbering (`GetCurrentVersion`, `CreateCommit`);
* the layered-document change analyzer (`compareLayerVersions`,
  `detectPropertyChanges`);
* the restoration planner and executor from the status package
  (`findRestorationPath`, `executeRestorationPath`) and
  `GetSnapshotFileHashes`.

Modelling conventions:

* Go strings and byte slices are modelled as `List Char`, one `Char` per
  byte (all bytes involved are below 256, so this is faithful).
* Go `int`/`int64` values are modelled as `Int` where the source can be
  negative-valued (file sizes) and as `Nat` for version numbers, which are
  non-negative in every reachable state and every call site.
* Go `float64` arithmetic (compression ratios, the 0.95 and 1.2 thresholds)
  is modelled exactly over `ℚ`.  The float values 0.95 and 1.2 are within
  2^-52 of the rationals 19/20 and 6/5 used here; the discrepancy is below
  the resolution of any ratio of two int64 sizes that the engine compares,
  except for astronomically large inputs that cannot arise.
* External effects (the LZ4 block compressor, the bsdiff library, file
  system reads) are passed in as explicit parameters, so that the control
  flow of the Go functions around them is modelled exactly.
-/

namespace DGit

/-- Bytes of a Go string or byte slice, one Char per byte. -/
abbrev Bytes := List Char

/-! ## Decimal representation and parsing

The writer emits sizes with `fmt.Sprintf("%d", n)` and the parsers read
them back with `strconv.ParseInt`/`strconv.Atoi`.  `decRepr` models the
printing of a non-negative value; `parseDecDigits` models parsing of an
unsigned run of digits. -/

/-- Base-10 digit values of n, least significant first, with explicit
fuel bounding the digit count so the recursion is structural and the
definition evaluates by kernel reduction. -/
def decDigitsRev (fuel n : ℕ) : List ℕ :=
  match fuel with
  | 0 => []
  | f + 1 => if n = 0 then [] else n % 10 :: decDigitsRev f (n / 10)

/-- Decimal representation of a natural number, most significant digit
first, as produced by the Go `%d` verb for non-negative values. -/
def decRepr (n : ℕ) : Bytes :=
  if n = 0 then ['0'] else ((decDigitsRev n n).reverse).map Nat.digitChar

/-- True when the byte is an ASCII decimal digit. -/
def isDigitB (c : Char) : Bool := '0' ≤ c && c ≤ '9'

/-- Value of a run of decimal digit bytes, most significant first. -/
def decValue (s : Bytes) : ℕ :=
  s.foldl (fun a c => 10 * a + (c.toNat - 48)) 0

/-- Parsing of an unsigned decimal run: defined exactly when the run is
non-empty and all bytes are digits, as `strconv.ParseInt` requires. -/
def parseDec (s : Bytes) : Option ℕ :=
  if s ≠ [] ∧ s.all isDigitB then some (decValue s) else none

/-! ## Staged files and the strategy selector

Source: the commit package.  A staged file carries its logical path and
its size; `shouldUseLZ4` inspects sizes and lowercased path extensions. -/

/-- Threshold constant from the commit package: 50 MiB. -/
def SmallFileThreshold : Int := 50 * 1024 * 1024

/-- A staged file as consumed by the commit manager: logical path bytes
and the int64 size reported by the staging area.  The absolute path and
modification time are not consulted by the modelled functions. -/
structure StagedFile where
  path : Bytes
  size : Int
deriving Repr, DecidableEq

/-- ASCII lowercasing of one byte, the fragment of strings.ToLower that
can apply to the extensions compared by the selector. -/
def toLowerB (c : Char) : Char :=
  if 'A' ≤ c && c ≤ 'Z' then Char.ofNat (c.toNat + 32) else c

/-- Backward scan of filepath.Ext: walking from the end of the path, stop
at a path separator; on the first dot return the suffix from that dot.
The first argument is the reversed remaining path, the second the suffix
accumulated so far (in forward order). -/
def extScan : Bytes → Bytes → Bytes
  | [], _ => []
  | c :: rest, acc =>
    if c = '/' then []
    else if c = '.' then '.' :: acc
    else extScan rest (c :: acc)

/-- filepath.Ext: the suffix beginning at the final dot in the final
slash-separated element of the path, empty if there is none. -/
def filepathExt (p : Bytes) : Bytes := extScan p.reverse []

/-- Lowercased extension of a staged file path, as computed by the
selector via strings.ToLower (filepath.Ext (file.Path)). -/
def extLower (p : Bytes) : Bytes := (filepathExt p).map toLowerB

/-- True when the lowercased extension is one of the layered-document
formats tested by the selector. -/
def isLayeredExt (e : Bytes) : Bool :=
  e = ".psd".toList || e = ".ai".toList || e = ".sketch".toList

/-- Per-file loop body of shouldUseLZ4: the first file whose size exceeds
100 MiB forces LZ4; otherwise the first file whose size exceeds 50 MiB or
whose extension is a layered format forces the delta path; a list with no
such file yields LZ4. -/
def shouldUseLZ4Loop : List StagedFile → Bool
  | [] => true
  | f :: rest =>
    if f.size > 100 * 1024 * 1024 then true
    else if f.size > SmallFileThreshold then false
    else if isLayeredExt (extLower f.path) then false
    else shouldUseLZ4Loop rest

/-- shouldUseLZ4 from the commit package: version 1 always takes the LZ4
snapshot path; otherwise the staged files are scanned in order. -/
def shouldUseLZ4 (files : List StagedFile) (version : ℕ) : Bool :=
  if version = 1 then true else shouldUseLZ4Loop files

/-! ## Repository artifact state and the delta chain length -/

/-- Presence of the on-disk artifacts the commit and status packages probe
for, indexed by version: objects/v_N_.zip (legacy), snapshots/v_N_.lz4,
deltas/v_N__from_v_N-1_.bsdiff, deltas/v_N__from_v_N-1_.psd_smart, and
objects/deltas/v_N__from_v_N-1_.bsdiff (legacy location). -/
structure RepoFS where
  legacyZip : ℕ → Bool
  lz4Snapshot : ℕ → Bool
  bsdiffDelta : ℕ → Bool
  psdSmartDelta : ℕ → Bool
  legacyDelta : ℕ → Bool

/-- getDeltaChainLength from the commit package: starting at ver and
walking down, count versions until one has a legacy objects/v_v_.zip
snapshot; the count stops only at legacy zip artifacts. -/
def getDeltaChainLength (fs : RepoFS) : ℕ → ℕ
  | 0 => 0
  | v + 1 => if fs.legacyZip (v + 1) then 0 else 1 + getDeltaChainLength fs v

/-- MaxDeltaChainLength as set by NewCommitManager (loadConfig does not
override it). -/
def MaxDeltaChainLength : ℕ := 5

/-- shouldCreateNewSnapshot from the commit package. -/
def shouldCreateNewSnapshot (fs : RepoFS) (ver : ℕ) : Bool :=
  MaxDeltaChainLength ≤ getDeltaChainLength fs ver

/-! ## Compression results and createSnapshot

CompressionResult carries the fields the claims consult.  The compression
ratio, a float64 in the source, is modelled over `ℚ`.  The delta and LZ4
sub-operations perform file system and library work; createSnapshot is
modelled as the exact branching structure of the source over their
outcomes, which are passed in as parameters. -/

/-- CompressionResult from the commit package (performance-metric fields
that no claim consults are omitted). -/
structure CompressionResult where
  strategy : Bytes
  outputFile : Bytes
  originalSize : Int
  compressedSize : Int
  compressionRatioQ : ℚ
  baseVersion : ℕ
deriving Repr, DecidableEq

/-- CompressionThreshold as set by NewCommitManager: 0.95. -/
def CompressionThreshold : ℚ := 19 / 20

/-- createSnapshot from the commit package.  The outcome of
createDelta (createBsdiffDelta) and of compressWithLZ4 are parameters;
the returned Bool records whether os.Remove was called on the delta
artifact (the post-hoc rejection path).  Strategy 1 is the LZ4 snapshot,
strategy 2 the delta attempt guarded by the chain length, strategy 3 the
LZ4 fallback. -/
def createSnapshot (files : List StagedFile) (version prevVersion : ℕ)
    (fs : RepoFS) (deltaOutcome lz4Outcome : Except Bytes CompressionResult) :
    Except Bytes CompressionResult × Bool :=
  if shouldUseLZ4 files version then (lz4Outcome, false)
  else if version > 1 ∧ ¬shouldCreateNewSnapshot fs prevVersion then
    match deltaOutcome with
    | .error _ => (lz4Outcome, false)
    | .ok d =>
      if d.compressionRatioQ ≤ CompressionThreshold then (.ok d, false)
      else (lz4Outcome, true)
  else (lz4Outcome, false)

/-! ## Structured-stream codec

Writer side: compressWithLZ4 emits, per file, the header
FILE:path:size followed by a newline and exactly size content bytes
(fmt.Sprintf of "FILE:%s:%d\n").  Reader side: parseStructuredDataToZip
scans the decompressed stream line by line, skipping lines that do not
carry a well-formed header, and slices out exactly size bytes after each
accepted header. -/

/-- One record of the structured stream, as written by compressWithLZ4. -/
def encodeRecord (path content : Bytes) : Bytes :=
  "FILE:".toList ++ path ++ ':' :: decRepr content.length ++ '\n' :: content

/-- Concatenation of the records of all files, in staging order: the
payload compressWithLZ4 feeds to the LZ4 writer. -/
def encodeStream : List (Bytes × Bytes) → Bytes
  | [] => []
  | (p, c) :: rest => encodeRecord p c ++ encodeStream rest

/-- strings.Split on a one-byte separator, as used on the header line;
the first argument accumulates the current field in reverse. -/
def splitScan (sep : Char) (acc : Bytes) : Bytes → List Bytes
  | [] => [acc.reverse]
  | c :: rest =>
    if c = sep then acc.reverse :: splitScan sep [] rest
    else splitScan sep (c :: acc) rest

/-- strings.Split of a byte string on a one-byte separator. -/
def splitOnByte (sep : Char) (s : Bytes) : List Bytes := splitScan sep [] s

/-- strings.Index of the newline byte: splits off the first line and the
remainder after the newline, or none when no newline is present. -/
def findLine : Bytes → Option (Bytes × Bytes)
  | [] => none
  | c :: rest =>
    if c = '\n' then some ([], rest)
    else (findLine rest).map (fun r => (c :: r.1, r.2))

/-- Header acceptance in parseStructuredDataToZip: the line must begin
with FILE:, split on colons into exactly three parts, and the third part
must parse as a positive int64 (strconv.ParseInt with bitSize 64).  The
result is the path field and the size. -/
def parseHeader (line : Bytes) : Option (Bytes × ℕ) :=
  if line.take 5 = "FILE:".toList then
    match splitOnByte ':' line with
    | [_, path, szStr] =>
      match parseDec szStr with
      | some sz => if 0 < sz ∧ sz < 2 ^ 63 then some (path, sz) else none
      | none => none
    | _ => none
  else none

/-- Loop body of parseStructuredDataToZip, with the byte positions of
the Go loop replaced by consuming the stream from the front: read a line
(stopping when no newline remains), skip it when the header is not
accepted, and otherwise take exactly size bytes of content, stopping
when fewer bytes remain than the header announces.  Every iteration of
the Go loop advances the position by at least one byte, so the length of
the data is an upper bound on the iteration count, supplied as explicit
fuel to keep the recursion structural. -/
def decodeLoop : ℕ → Bytes → List (Bytes × Bytes)
  | 0, _ => []
  | fuel + 1, data =>
    match findLine data with
    | none => []
    | some (line, rest) =>
      match parseHeader line with
      | some (path, sz) =>
        if sz ≤ rest.length then
          (path, rest.take sz) :: decodeLoop fuel (rest.drop sz)
        else []
      | none => decodeLoop fuel rest

/-- parseStructuredDataToZip from the commit package: the zip entries the
Go code creates, as (path, content) pairs in creation order. -/
def decodeStream (data : Bytes) : List (Bytes × Bytes) :=
  decodeLoop data.length data

/-! ## Snapshot writer validation

compressWithLZ4 streams the staged files through the structured-stream
writer into the LZ4 compressor, accumulating the summed input size, then
validates the output size against it.  File reads that fail are skipped
with a warning (modelled by a none content); the LZ4 block compressor is
an external library, passed in as a function on the payload bytes. -/

/-- Successfully read staged files: the (path, content) pairs that the
writer loop actually emits, in order. -/
def readOkFiles (reads : List (Bytes × Option Bytes)) : List (Bytes × Bytes) :=
  reads.filterMap (fun r => r.2.map (fun c => (r.1, c)))

/-- compressWithLZ4 from the commit package: build the structured stream
over the readable files, compress it, and validate.  The returned Bool
records whether os.Remove was called on the output file.  originalSize
is the sum of the actual byte counts of the files streamed; the write
errors when it is zero, when the output exceeds 1.2 times the input, or
when the output is empty, and otherwise returns the lz4 strategy result
with ratio output over input. -/
def compressWithLZ4 (reads : List (Bytes × Option Bytes)) (version : ℕ)
    (lz4 : Bytes → Bytes) : Except Bytes CompressionResult × Bool :=
  let stream := encodeStream (readOkFiles reads)
  let originalSize : ℕ := ((readOkFiles reads).map (fun r => r.2.length)).sum
  let compressedSize : ℕ := (lz4 stream).length
  if originalSize = 0 then (.error "no data to compress".toList, true)
  else if (compressedSize : ℚ) / (originalSize : ℚ) > 6 / 5 then
    (.error "compression failed: file became larger".toList, true)
  else if compressedSize = 0 then
    (.error "compression failed: output file is empty".toList, true)
  else
    (.ok { strategy := "lz4".toList
           outputFile := 'v' :: decRepr version ++ ".lz4".toList
           originalSize := originalSize
           compressedSize := compressedSize
           compressionRatioQ := (compressedSize : ℚ) / (originalSize : ℚ)
           baseVersion := 0 }, false)

/-! ## Version numbering

GetCurrentVersion scans the commits directory for entries named
v_N_.json, parses N with strconv.Atoi ignoring its error (0 then), and
returns the maximum; CreateCommit assigns max + 1 and saveCommitMetadata
writes the record v_N_.json for the new version. -/

/-- strings.HasPrefix. -/
def hasPrefixB (pre s : Bytes) : Bool := s.take pre.length = pre

/-- strings.HasSuffix. -/
def hasSuffixB (suf s : Bytes) : Bool :=
  suf.length ≤ s.length && s.drop (s.length - suf.length) = suf

/-- strconv.Atoi with the error ignored, as GetCurrentVersion uses it: an
optional sign followed by a non-empty run of digits, anything else giving
the zero value the discarded error leaves behind.  The range clamping of
out-of-range literals is not modelled; no claim involves values near
2^63. -/
def goAtoi : Bytes → ℤ
  | [] => 0
  | c :: rest =>
    if c = '-' then match parseDec rest with | some n => -(n : ℤ) | none => 0
    else if c = '+' then match parseDec rest with | some n => (n : ℤ) | none => 0
    else match parseDec (c :: rest) with | some n => (n : ℤ) | none => 0

/-- GetCurrentVersion from the commit package, over the entry names of
the commits directory: fold the maximum of the parsed version of every
entry shaped like v1.json, starting from zero. -/
def getCurrentVersionOf (entries : List Bytes) : ℤ :=
  entries.foldl
    (fun maxV e =>
      if hasPrefixB "v".toList e && hasSuffixB ".json".toList e then
        let n := goAtoi ((e.drop 1).take ((e.drop 1).length - 5))
        if n > maxV then n else maxV
      else maxV)
    0

/-- Version CreateCommit assigns: GetCurrentVersion plus one. -/
def assignedVersion (entries : List Bytes) : ℤ := getCurrentVersionOf entries + 1

/-- Entry name saveCommitMetadata writes for version n. -/
def commitEntryName (n : ℕ) : Bytes := 'v' :: decRepr n ++ ".json".toList

/-- Commits directory contents after k successful commits starting from
an empty repository: each CreateCommit appends the record of the version
it assigned. -/
def commitsDirAfter : ℕ → List Bytes
  | 0 => []
  | k + 1 =>
    let es := commitsDirAfter k
    es ++ [commitEntryName (assignedVersion es).toNat]

/-! ## Layered-document change analyzer

compareLayerVersions and detectPropertyChanges from the commit package.
The DetailedLayer record they consume is supplied by the photoshop
scanner package, which is not among the provided sources. -/

/-- Modelled from the spec: DetailedLayer, the parsed layer record of the
external scanner package (dgit/internal/scanner/photoshop, absent from
the sources), carrying the fields the spec lists for the analyzer input
contract: id, name, content_hash, opacity, visibility, blend_mode,
position.  Property values are modelled with decidable equality, which
is all the analyzer uses of them. -/
structure DetailedLayer where
  id : ℤ
  name : Bytes
  contentHash : Bytes
  opacity : ℤ
  visible : Bool
  blendMode : Bytes
  position : Bytes
deriving Repr, DecidableEq

/-- Content of the property_changes map of a modified layer: for each of
the four tracked properties, the old and new value when they differ. -/
structure PropertyChanges where
  opacity : Option (ℤ × ℤ)
  visibility : Option (Bool × Bool)
  blendMode : Option (Bytes × Bytes)
  position : Option (Bytes × Bytes)
deriving Repr, DecidableEq

/-- The empty property_changes map. -/
def PropertyChanges.none : PropertyChanges := ⟨Option.none, Option.none, Option.none, Option.none⟩

/-- detectPropertyChanges from the commit package. -/
def detectPropertyChanges (ol nl : DetailedLayer) : PropertyChanges :=
  { opacity := if ol.opacity ≠ nl.opacity then some (ol.opacity, nl.opacity) else Option.none
    visibility := if ol.visible ≠ nl.visible then some (ol.visible, nl.visible) else Option.none
    blendMode := if ol.blendMode ≠ nl.blendMode then some (ol.blendMode, nl.blendMode) else Option.none
    position := if ol.position ≠ nl.position then some (ol.position, nl.position) else Option.none }

/-- LayerChange from the commit package; absent omitempty hash fields are
the empty string. -/
structure LayerChange where
  layerId : ℤ
  layerName : Bytes
  changeType : Bytes
  oldHash : Bytes
  newHash : Bytes
  propertyChanges : PropertyChanges
deriving Repr, DecidableEq

/-- ChangeAnalysis from the commit package.  The changes_summary display
string is not modelled; no claim consults it. -/
structure ChangeAnalysis where
  totalLayers : ℕ
  changedLayers : List LayerChange
  addedLayers : List LayerChange
  deletedLayers : List LayerChange
  unchangedCount : ℤ
deriving Repr, DecidableEq

/-- Lookup in the Go maps compareLayerVersions builds with
m[layer.Name] = layer over the list: assignment makes the last
occurrence of a duplicated name win. -/
def layerMapLookup (layers : List DetailedLayer) (nm : Bytes) : Option DetailedLayer :=
  layers.foldl (fun acc l => if l.name = nm then some l else acc) Option.none

/-- The added record built for a new layer with a fresh name. -/
def mkAddedChange (l : DetailedLayer) : LayerChange :=
  { layerId := l.id, layerName := l.name, changeType := "added".toList
    oldHash := [], newHash := l.contentHash, propertyChanges := PropertyChanges.none }

/-- The deleted record built for an old layer whose name disappeared. -/
def mkDeletedChange (l : DetailedLayer) : LayerChange :=
  { layerId := l.id, layerName := l.name, changeType := "deleted".toList
    oldHash := l.contentHash, newHash := [], propertyChanges := PropertyChanges.none }

/-- The modified record built from a matched old and new layer. -/
def mkModifiedChange (ol nl : DetailedLayer) : LayerChange :=
  { layerId := nl.id, layerName := nl.name, changeType := "modified".toList
    oldHash := ol.contentHash, newHash := nl.contentHash
    propertyChanges := detectPropertyChanges ol nl }

/-- compareLayerVersions from the commit package: added are the new
layers absent from the old map, deleted the old layers absent from the
new map, modified the new layers present in the old map with a differing
content hash; unchanged_count is new total minus modified minus added. -/
def compareLayerVersions (oldLayers newLayers : List DetailedLayer) : ChangeAnalysis :=
  let added := newLayers.filterMap (fun l =>
    if (layerMapLookup oldLayers l.name).isNone then some (mkAddedChange l) else Option.none)
  let deleted := oldLayers.filterMap (fun l =>
    if (layerMapLookup newLayers l.name).isNone then some (mkDeletedChange l) else Option.none)
  let changed := newLayers.filterMap (fun l =>
    match layerMapLookup oldLayers l.name with
    | some ol =>
      if ol.contentHash ≠ l.contentHash then some (mkModifiedChange ol l) else Option.none
    | Option.none => Option.none)
  { totalLayers := newLayers.length
    changedLayers := changed
    addedLayers := added
    deletedLayers := deleted
    unchangedCount := (newLayers.length : ℤ) - changed.length - added.length }

/-- First layer of the list carrying the given name, the matching rule
the spec prescribes for name collisions. -/
def firstByName (layers : List DetailedLayer) (nm : Bytes) : Option DetailedLayer :=
  layers.find? (fun l => l.name = nm)

/-- Last layer of the list carrying the given name, the matching rule Go
map assignment actually implements. -/
def lastByName (layers : List DetailedLayer) (nm : Bytes) : Option DetailedLayer :=
  layers.reverse.find? (fun l => l.name = nm)

/-- Change analysis as the spec describes it, parameterized by the
matching rule used to resolve a name to an old layer: added are exactly
the new layers whose name exists in new but not old, deleted exactly the
old layers whose name exists in old but not new, modified exactly the
new layers whose name exists in both with a differing content hash
against the matched old layer, and unchanged_count the difference of the
counts. -/
def specAnalysisWith (match_ : List DetailedLayer → Bytes → Option DetailedLayer)
    (oldLayers newLayers : List DetailedLayer) : ChangeAnalysis :=
  let added := (newLayers.filter (fun l =>
    ¬ l.name ∈ oldLayers.map (fun o => o.name))).map mkAddedChange
  let deleted := (oldLayers.filter (fun l =>
    ¬ l.name ∈ newLayers.map (fun o => o.name))).map mkDeletedChange
  let changed := newLayers.filterMap (fun l =>
    (match_ oldLayers l.name).bind (fun ol =>
      if ol.contentHash ≠ l.contentHash then some (mkModifiedChange ol l) else Option.none))
  { totalLayers := newLayers.length
    changedLayers := changed
    addedLayers := added
    deletedLayers := deleted
    unchangedCount := (newLayers.length : ℤ) - changed.length - added.length }

/-! ## Restoration planner and executor, snapshot hashes

findRestorationPath and executeRestorationPath from the status package,
and the dispatch of GetSnapshotFileHashes.  Only artifact presence and
the operations performed are modelled; the artifact file path of a step
is determined by its type and version and is omitted from the step
record. -/

/-- RestorationStep from the status package (the File field, a function
of type and version, is omitted). -/
structure RestorationStep where
  type : Bytes
  version : ℕ
deriving Repr, DecidableEq

/-- Backward walk of findRestorationPath, in the probe order of the
source: lz4 snapshot, legacy zip (both terminate the walk), bsdiff
delta, psd_smart delta, legacy-location bsdiff delta (each recorded as a
step before walking to the previous version).  A version with no
artifact fails; reaching version zero ends the walk with the steps
collected so far. -/
def locateSteps (fs : RepoFS) : ℕ → Except Bytes (List RestorationStep)
  | 0 => .ok []
  | v + 1 =>
    if fs.lz4Snapshot (v + 1) then .ok [⟨"lz4".toList, v + 1⟩]
    else if fs.legacyZip (v + 1) then .ok [⟨"zip".toList, v + 1⟩]
    else if fs.bsdiffDelta (v + 1) then
      (locateSteps fs v).map (fun p => p ++ [⟨"bsdiff".toList, v + 1⟩])
    else if fs.psdSmartDelta (v + 1) then
      (locateSteps fs v).map (fun p => p ++ [⟨"psd_smart".toList, v + 1⟩])
    else if fs.legacyDelta (v + 1) then
      (locateSteps fs v).map (fun p => p ++ [⟨"bsdiff".toList, v + 1⟩])
    else .error "missing restoration data".toList

/-- findRestorationPath from the status package: the backward walk,
and the final guard rejecting an empty plan. -/
def findRestorationPath (fs : RepoFS) (target : ℕ) : Except Bytes (List RestorationStep) :=
  match locateSteps fs target with
  | .ok [] => .error "no restoration path found".toList
  | .ok p => .ok p
  | .error e => .error e

/-- One observable file operation of the restoration executor. -/
inductive RestoreOp where
  | convertLZ4ToZip (version : ℕ)
  | copyZip (version : ℕ)
  | bspatch (stepType : Bytes) (version : ℕ)
deriving Repr, DecidableEq

/-- Patch loop of executeRestorationPath over the steps after the base:
bsdiff and psd_smart steps are both applied with applyBsdiffPatch (the
bspatch library) against the previous working file; xdelta3 and unknown
types fail. -/
def execPatchSteps : List RestorationStep → Except Bytes (List RestoreOp)
  | [] => .ok []
  | s :: rest =>
    if s.type = "bsdiff".toList then
      (execPatchSteps rest).map (fun ops => RestoreOp.bspatch "bsdiff".toList s.version :: ops)
    else if s.type = "psd_smart".toList then
      (execPatchSteps rest).map (fun ops => RestoreOp.bspatch "psd_smart".toList s.version :: ops)
    else if s.type = "xdelta3".toList then .error "xdelta3 restoration not yet implemented".toList
    else .error "unknown restoration step type".toList

/-- executeRestorationPath from the status package: materialize the base
step (lz4 snapshots are converted to a zip, legacy zips copied, anything
else is an unsupported base), then apply every remaining step as a
binary patch.  The Go code indexes path[0]; an empty plan, unreachable
from the planner, is modelled as an error. -/
def executeRestorationPath : List RestorationStep → Except Bytes (List RestoreOp)
  | [] => .error "empty restoration path".toList
  | base :: rest =>
    if base.type = "lz4".toList then
      (execPatchSteps rest).map (fun ops => RestoreOp.convertLZ4ToZip base.version :: ops)
    else if base.type = "zip".toList then
      (execPatchSteps rest).map (fun ops => RestoreOp.copyZip base.version :: ops)
    else .error "unsupported base file type".toList

/-- Commit record fields consulted by GetSnapshotFileHashes (timestamp
and the free-form metadata map are omitted). -/
structure CommitRec where
  hash : Bytes
  message : Bytes
  author : Bytes
  filesCount : ℕ
  version : ℕ
  parentHash : Bytes
  snapshotZip : Bytes
  compressionInfo : Option CompressionResult

/-- GetSnapshotFileHashes from the status package: a commit that cannot
be loaded yields an empty map and no error; otherwise the strategy of
compression_info dispatches to the lz4, zip or delta-chain extractor,
and with no usable compression_info the legacy snapshot_zip field is
consulted, an empty map with no error being returned when it too is
absent.  The extractor outcomes are parameters; the hash map is an
association list path to hash. -/
def GetSnapshotFileHashes (commitLoad : Except Bytes CommitRec)
    (lz4Extract zipExtract chainExtract legacyZipExtract :
      Except Bytes (List (Bytes × Bytes))) :
    Except Bytes (List (Bytes × Bytes)) :=
  match commitLoad with
  | .error _ => .ok []
  | .ok c =>
    let fallback := if c.snapshotZip ≠ [] then legacyZipExtract else .ok []
    match c.compressionInfo with
    | some ci =>
      if ci.strategy = "lz4".toList then lz4Extract
      else if ci.strategy = "zip".toList then zipExtract
      else if ci.strategy = "bsdiff".toList ∨ ci.strategy = "xdelta3".toList then chainExtract
      else if ci.strategy = "psd_smart".toList then chainExtract
      else fallback
    | Option.none => fallback

/-- Delta-hop distance from a version back to the most recent full
snapshot of any supported snapshot form (lz4 snapshot or legacy zip),
the chain-length notion the claims describe. -/
def chainLengthSpec (fs : RepoFS) : ℕ → ℕ
  | 0 => 0
  | v + 1 =>
    if fs.lz4Snapshot (v + 1) || fs.legacyZip (v + 1) then 0
    else 1 + chainLengthSpec fs v

/-- State after a commit stores an lz4 full snapshot for version n. -/
def RepoFS.addLz4 (fs : RepoFS) (n : ℕ) : RepoFS :=
  { fs with lz4Snapshot := fun v => v = n || fs.lz4Snapshot v }

/-- State after a commit stores a delta artifact for version n (the
active write path names it v_n__from_v_n-1_.psd_smart). -/
def RepoFS.addDelta (fs : RepoFS) (n : ℕ) : RepoFS :=
  { fs with psdSmartDelta := fun v => v = n || fs.psdSmartDelta v }

/-- Decidable equality of Except outcomes, for evaluating the model on
concrete inputs. -/
instance exceptDecEq {e a : Type} [DecidableEq e] [DecidableEq a] :
    DecidableEq (Except e a) := fun x y =>
  match x, y with
  | .error u, .error v =>
    if h : u = v then .isTrue (by rw [h]) else .isFalse (fun hc => h (Except.error.inj hc))
  | .error _, .ok _ => .isFalse (fun hc => Except.noConfusion hc)
  | .ok _, .error _ => .isFalse (fun hc => Except.noConfusion hc)
  | .ok u, .ok v =>
    if h : u = v then .isTrue (by rw [h]) else .isFalse (fun hc => h (Except.ok.inj hc))

/-! ## Concrete inputs used by the claim theorems below -/

/-- A file that triggers a decision in the selector loop after the very
large file rule: size above 50 MiB or a layered-document extension. -/
def deltaTrigger (f : StagedFile) : Bool :=
  f.size > SmallFileThreshold || isLayeredExt (extLower f.path)

/-- Concrete repository state for the C1 counterexample: only an lz4
snapshot for version 1 is present. -/
def fsC1 : RepoFS :=
  { legacyZip := fun _ => false
    lz4Snapshot := fun v => v = 1
    bsdiffDelta := fun _ => false
    psdSmartDelta := fun _ => false
    legacyDelta := fun _ => false }

/-- Delta outcome used by the C1 counterexample: a successful bsdiff
delta at half the original size. -/
def deltaResC1 : CompressionResult :=
  { strategy := "bsdiff".toList
    outputFile := "v2_from_v1.psd_smart".toList
    originalSize := 220200961
    compressedSize := 110100480
    compressionRatioQ := 1 / 2
    baseVersion := 1 }

/-- LZ4 outcome offered to the C1 counterexample (never chosen there). -/
def lz4ResC1 : CompressionResult :=
  { strategy := "lz4".toList
    outputFile := "v2.lz4".toList
    originalSize := 220200961
    compressedSize := 110100480
    compressionRatioQ := 1 / 2
    baseVersion := 0 }

/-- Concrete repository state for the C3 counterexample: an lz4 full
snapshot for version 1 and a bsdiff delta for version 2. -/
def fsC3 : RepoFS :=
  { legacyZip := fun _ => false
    lz4Snapshot := fun v => v = 1
    bsdiffDelta := fun v => v = 2
    psdSmartDelta := fun _ => false
    legacyDelta := fun _ => false }

/-- Concrete repository state for the C2 counterexample: an lz4 full
snapshot for version 1 and a psd_smart delta artifact for version 2. -/
def fsC2 : RepoFS :=
  { legacyZip := fun _ => false
    lz4Snapshot := fun v => v = 1
    bsdiffDelta := fun _ => false
    psdSmartDelta := fun v => v = 2
    legacyDelta := fun _ => false }

/-- Old layer list of the C9 counterexample: two layers share the name
L, the first with content hash a, the second with content hash b. -/
def oldC9 : List DetailedLayer :=
  [⟨1, "L".toList, "a".toList, 255, true, "normal".toList, "0,0".toList⟩,
   ⟨2, "L".toList, "b".toList, 255, true, "normal".toList, "0,0".toList⟩]

/-- New layer list of the C9 counterexample: one layer named L with
content hash b. -/
def newC9 : List DetailedLayer :=
  [⟨3, "L".toList, "b".toList, 255, true, "normal".toList, "0,0".toList⟩]

/-! # Theorems

Helper lemmas first, then one theorem per checked claim, each with its
witness or counterexample. -/

/-! ## Decimal printing and parsing round trip -/

theorem decDigitsRev_eq_digits : ∀ fuel n, n ≤ fuel → decDigitsRev fuel n = Nat.digits 10 n := by
  intro fuel
  induction fuel with
  | zero =>
    intro n hn
    have : n = 0 := by omega
    simp [this, decDigitsRev]
  | succ f ih =>
    intro n hn
    rw [decDigitsRev]
    by_cases h0 : n = 0
    · simp [h0]
    · rw [if_neg h0, Nat.digits_def' (by norm_num : 1 < 10) (Nat.pos_of_ne_zero h0)]
      congr 1
      have hlt : n / 10 < n := Nat.div_lt_self (Nat.pos_of_ne_zero h0) (by norm_num)
      exact ih (n / 10) (by omega)

theorem decRepr_eq (n : ℕ) :
    decRepr n = if n = 0 then ['0'] else ((Nat.digits 10 n).reverse).map Nat.digitChar := by
  rw [decRepr, decDigitsRev_eq_digits n n le_rfl]

theorem digitChar_toNat : ∀ d : ℕ, d < 10 → (Nat.digitChar d).toNat = d + 48 := by decide

theorem isDigitB_digitChar : ∀ d : ℕ, d < 10 → isDigitB (Nat.digitChar d) = true := by decide

theorem decRepr_all_digits {n : ℕ} : ∀ c ∈ decRepr n, isDigitB c = true := by
  intro c hc
  rw [decRepr_eq] at hc
  by_cases h0 : n = 0
  · simp [h0] at hc
    subst hc
    decide
  · rw [if_neg h0] at hc
    simp only [List.mem_map, List.mem_reverse] at hc
    obtain ⟨d, hd, rfl⟩ := hc
    exact isDigitB_digitChar d (Nat.digits_lt_base (by norm_num) hd)

theorem isDigitB_ne_colon {c : Char} (h : isDigitB c = true) : c ≠ ':' := by
  intro hc; subst hc; simp [isDigitB] at h

theorem isDigitB_ne_newline {c : Char} (h : isDigitB c = true) : c ≠ '\n' := by
  intro hc; subst hc; simp [isDigitB] at h

theorem foldl_digits_eq (ds : List ℕ) (hds : ∀ d ∈ ds, d < 10) :
    ∀ a : ℕ, ((ds.reverse.map Nat.digitChar).foldl (fun x c => 10 * x + (c.toNat - 48)) a)
      = a * 10 ^ ds.length + Nat.ofDigits 10 ds := by
  induction ds with
  | nil => intro a; simp [Nat.ofDigits_nil]
  | cons d ds ih =>
    intro a
    have hd : d < 10 := hds d (List.mem_cons_self d ds)
    have hds2 : ∀ x ∈ ds, x < 10 := fun x hx => hds x (List.mem_cons_of_mem d hx)
    simp only [List.reverse_cons, List.map_append, List.foldl_append, List.map_cons,
      List.map_nil, List.foldl_cons, List.foldl_nil, List.length_cons]
    rw [ih hds2 a, Nat.ofDigits_cons]
    rw [digitChar_toNat d hd]
    ring_nf
    omega

theorem decValue_decRepr (n : ℕ) : decValue (decRepr n) = n := by
  rw [decRepr_eq]
  by_cases h0 : n = 0
  · simp [h0, decValue]
  · rw [if_neg h0]
    unfold decValue
    rw [foldl_digits_eq (Nat.digits 10 n) (fun d hd => Nat.digits_lt_base (by norm_num) hd) 0]
    simp [Nat.ofDigits_digits]

theorem decRepr_ne_nil (n : ℕ) : decRepr n ≠ [] := by
  rw [decRepr_eq]
  by_cases h0 : n = 0
  · simp [h0]
  · rw [if_neg h0]
    simp only [ne_eq, List.map_eq_nil_iff, List.reverse_eq_nil_iff]
    exact Nat.digits_ne_nil_iff_ne_zero.mpr h0

theorem parseDec_decRepr (n : ℕ) : parseDec (decRepr n) = some n := by
  rw [parseDec, if_pos, decValue_decRepr]
  exact ⟨decRepr_ne_nil n, List.all_eq_true.mpr (fun c hc => decRepr_all_digits c hc)⟩

/-! ## Structured-stream codec lemmas -/

theorem findLine_append : ∀ (H T : Bytes), (∀ c ∈ H, c ≠ '\n') →
    findLine (H ++ '\n' :: T) = some (H, T) := by
  intro H
  induction H with
  | nil => intro T _; simp [findLine]
  | cons c cs ih =>
    intro T hH
    have hc : c ≠ '\n' := hH c (List.mem_cons_self c cs)
    rw [List.cons_append, findLine, if_neg hc,
      ih T (fun x hx => hH x (List.mem_cons_of_mem c hx))]
    rfl

theorem splitScan_no_sep (sep : Char) : ∀ (B acc : Bytes), (∀ x ∈ B, x ≠ sep) →
    splitScan sep acc B = [acc.reverse ++ B] := by
  intro B
  induction B with
  | nil => intro acc _; simp [splitScan]
  | cons b bs ih =>
    intro acc hB
    have hb : b ≠ sep := hB b (List.mem_cons_self b bs)
    rw [splitScan, if_neg hb, ih (b :: acc) (fun x hx => hB x (List.mem_cons_of_mem b hx))]
    simp

theorem splitScan_append (sep : Char) : ∀ (A B acc : Bytes), (∀ x ∈ A, x ≠ sep) →
    splitScan sep acc (A ++ sep :: B) = (acc.reverse ++ A) :: splitScan sep [] B := by
  intro A
  induction A with
  | nil => intro B acc _; simp [splitScan]
  | cons a as ih =>
    intro B acc hA
    have ha : a ≠ sep := hA a (List.mem_cons_self a as)
    rw [List.cons_append, splitScan, if_neg ha,
      ih B (a :: acc) (fun x hx => hA x (List.mem_cons_of_mem a hx))]
    simp

theorem parseHeader_record {p : Bytes} {m : ℕ} (hp : ∀ c ∈ p, c ≠ ':')
    (hm0 : 0 < m) (hm : m < 2 ^ 63) :
    parseHeader ("FILE:".toList ++ p ++ ':' :: decRepr m) = some (p, m) := by
  have hdig : ∀ c ∈ decRepr m, c ≠ ':' :=
    fun c hc => isDigitB_ne_colon (decRepr_all_digits c hc)
  have h5 : ("FILE:".toList).length = 5 := by decide
  have htake : ("FILE:".toList ++ p ++ ':' :: decRepr m).take 5 = "FILE:".toList := by
    rw [List.append_assoc, ← h5]
    exact List.take_left _ _
  have hFI : "FILE:".toList = "FILE".toList ++ [':'] := by decide
  have h1 : ("FILE:".toList ++ p ++ ':' :: decRepr m)
      = "FILE".toList ++ ':' :: (p ++ ':' :: decRepr m) := by
    rw [hFI]; simp
  have hsplit : splitOnByte ':' ("FILE:".toList ++ p ++ ':' :: decRepr m)
      = ["FILE".toList, p, decRepr m] := by
    rw [splitOnByte, h1, splitScan_append ':' "FILE".toList _ [] (by decide),
      splitScan_append ':' p _ [] hp,
      splitScan_no_sep ':' (decRepr m) [] hdig]
    simp
  rw [parseHeader, if_pos htake, hsplit]
  dsimp only
  rw [parseDec_decRepr]
  dsimp only
  rw [if_pos ⟨hm0, hm⟩]

theorem decodeLoop_encodeStream : ∀ (rs : List (Bytes × Bytes)) (fuel : ℕ),
    (∀ pc ∈ rs, (∀ c ∈ pc.1, c ≠ ':' ∧ c ≠ '\n') ∧ pc.2 ≠ [] ∧ pc.2.length < 2 ^ 63) →
    (encodeStream rs).length ≤ fuel →
    decodeLoop fuel (encodeStream rs) = rs := by
  intro rs
  induction rs with
  | nil =>
    intro fuel _ _
    cases fuel with
    | zero => rfl
    | succ f => rw [decodeLoop]; rfl
  | cons pc rest ih =>
    obtain ⟨p, c⟩ := pc
    intro fuel hgood hfuel
    obtain ⟨hpc, hc0, hclt⟩ := hgood (p, c) (List.mem_cons_self _ _)
    dsimp only at hpc hc0 hclt
    have hE : encodeStream ((p, c) :: rest)
        = ("FILE:".toList ++ p ++ ':' :: decRepr c.length)
          ++ '\n' :: (c ++ encodeStream rest) := by
      rw [encodeStream, encodeRecord]
      simp
    have hHn : ∀ x ∈ ("FILE:".toList ++ p ++ ':' :: decRepr c.length), x ≠ '\n' := by
      intro x hx
      simp only [List.mem_append, List.mem_cons] at hx
      rcases hx with (hx | hx) | hx | hx
      · have hx5 : x ∈ ['F', 'I', 'L', 'E', ':'] := hx
        fin_cases hx5 <;> decide
      · exact (hpc x hx).2
      · subst hx; decide
      · exact isDigitB_ne_newline (decRepr_all_digits x hx)
    have hlen : (encodeStream ((p, c) :: rest)).length
        = ("FILE:".toList ++ p ++ ':' :: decRepr c.length).length
          + 1 + c.length + (encodeStream rest).length := by
      rw [hE]; simp; omega
    cases fuel with
    | zero =>
      exfalso
      rw [hlen] at hfuel
      omega
    | succ f =>
      rw [decodeLoop, hE, findLine_append _ _ hHn]
      dsimp only
      rw [parseHeader_record (fun x hx => (hpc x hx).1)
        (List.length_pos.mpr hc0) hclt]
      dsimp only
      have hle : c.length ≤ (c ++ encodeStream rest).length := by simp
      rw [if_pos hle, List.take_left c _, List.drop_left c _]
      congr 1
      apply ih f (fun q hq => hgood q (List.mem_cons_of_mem _ hq))
      rw [hlen] at hfuel
      omega

/-! ## C5: structured-stream round trip -/

/-- C5: the round trip as stated fails on records with empty content and
on records whose logical path contains a colon.  A single file with
empty content is encoded as the header FILE:a:0 with no content bytes;
the decoder rejects the size 0 (ParseInt result not positive) and drops
the record.  A path a:b makes the header split into four fields and the
record is likewise dropped. -/
theorem C5_counterexample :
    decodeStream (encodeStream [("a".toList, [])]) = [] ∧
    decodeStream (encodeStream [("a".toList, [])]) ≠ [("a".toList, [])] ∧
    decodeStream (encodeStream [("a:b".toList, "x".toList)]) = [] ∧
    decodeStream (encodeStream [("a:b".toList, "x".toList)])
      ≠ [("a:b".toList, "x".toList)] := by
  refine ⟨by decide, by decide, by decide, by decide⟩

/-- C5 (amended): writing any finite list of (path, bytes) records
through the structured-stream writer and decoding the stream with
parseStructuredDataToZip yields exactly the same list in the same order,
with path bytes passed through verbatim, for every record whose path
contains neither a colon nor a newline, whose content is non-empty, and
whose content length is below 2^63 (the int64 bound of ParseInt). -/
theorem C5_roundtrip (rs : List (Bytes × Bytes))
    (hgood : ∀ pc ∈ rs, (∀ c ∈ pc.1, c ≠ ':' ∧ c ≠ '\n')
      ∧ pc.2 ≠ [] ∧ pc.2.length < 2 ^ 63) :
    decodeStream (encodeStream rs) = rs :=
  decodeLoop_encodeStream rs (encodeStream rs).length hgood le_rfl

/-- C5 witness: the round trip evaluated on a concrete two-record list,
one record empty-named and one with binary-looking content. -/
theorem C5_roundtrip_witness :
    decodeStream (encodeStream [("a.txt".toList, "hi".toList), ([], "FILE:x:1\n".toList)])
      = [("a.txt".toList, "hi".toList), ([], "FILE:x:1\n".toList)] :=
  C5_roundtrip [("a.txt".toList, "hi".toList), ([], "FILE:x:1\n".toList)] (by decide)

/-! ## C1 and C4: strategy selection and post-hoc acceptance -/

theorem shouldUseLZ4Loop_first_trigger : ∀ (files : List StagedFile) (f : StagedFile),
    files.find? deltaTrigger = some f → f.size > 100 * 1024 * 1024 →
    shouldUseLZ4Loop files = true := by
  intro files
  induction files with
  | nil => intro f hf; simp [List.find?] at hf
  | cons g rest ih =>
    intro f hf hbig
    cases hg : deltaTrigger g with
    | true =>
      simp only [List.find?_cons, hg, Option.some.injEq] at hf
      subst hf
      rw [shouldUseLZ4Loop, if_pos hbig]
    | false =>
      simp only [List.find?_cons, hg] at hf
      have hg2 : ¬ deltaTrigger g = true := by rw [hg]; exact Bool.false_ne_true
      have hsz : ¬ g.size > SmallFileThreshold := by
        intro h
        exact hg2 (by rw [deltaTrigger]; simp [h])
      have hlay : ¬ isLayeredExt (extLower g.path) = true := by
        intro h
        exact hg2 (by rw [deltaTrigger]; simp [h])
      have hsz100 : ¬ g.size > 100 * 1024 * 1024 := by
        intro h
        apply hsz
        have : SmallFileThreshold < 100 * 1024 * 1024 := by decide
        omega
      rw [shouldUseLZ4Loop, if_neg hsz100, if_neg hsz, if_neg hlay]
      exact ih f hf hbig

/-- C1: the claim fails on the code.  With a 60 MiB file listed before a
150 MiB file, version 2, an unsaturated chain, and a usable delta
outcome, createSnapshot resolves to the delta, although a staged file
exceeds 100 MiB: the selector loop returns on the first file that
matches any size or extension rule, so the 60 MiB file decides for the
delta path before the 150 MiB file is examined. -/
theorem C1_counterexample :
    (List.any [⟨"a.bin".toList, 60 * 1024 * 1024 + 1⟩,
               ⟨"big.bin".toList, 150 * 1024 * 1024⟩]
      (fun f : StagedFile => f.size > 100 * 1024 * 1024) = true) ∧
    createSnapshot [⟨"a.bin".toList, 60 * 1024 * 1024 + 1⟩,
                    ⟨"big.bin".toList, 150 * 1024 * 1024⟩]
      2 1 fsC1 (.ok deltaResC1) (.ok lz4ResC1)
      = (.ok deltaResC1, false) ∧
    deltaResC1.strategy = "bsdiff".toList := by
  refine ⟨by decide, ?_, by decide⟩
  have h1 : shouldUseLZ4 [⟨"a.bin".toList, 60 * 1024 * 1024 + 1⟩,
      ⟨"big.bin".toList, 150 * 1024 * 1024⟩] 2 = false := by decide
  unfold createSnapshot
  rw [if_neg (by rw [h1]; exact Bool.false_ne_true),
    if_pos (And.intro (by norm_num) (by decide))]
  dsimp only
  rw [if_pos (by norm_num [deltaResC1, CompressionThreshold])]

/-- C1 (amended): the selector decides on the first staged file, in list
order, whose size exceeds 50 MiB or whose extension is layered; when
that first deciding file exceeds 100 MiB (in particular whenever a file
larger than 100 MiB precedes every other deciding file), the strategy is
the full LZ4 snapshot, regardless of later files, and createSnapshot
returns the LZ4 outcome without touching the delta path. -/
theorem C1_first_trigger_full (files : List StagedFile) (version prevVersion : ℕ)
    (fs : RepoFS) (deltaOutcome lz4Outcome : Except Bytes CompressionResult)
    (f : StagedFile) (hfind : files.find? deltaTrigger = some f)
    (hbig : f.size > 100 * 1024 * 1024) :
    shouldUseLZ4 files version = true ∧
    createSnapshot files version prevVersion fs deltaOutcome lz4Outcome
      = (lz4Outcome, false) := by
  have hloop := shouldUseLZ4Loop_first_trigger files f hfind hbig
  have hsel : shouldUseLZ4 files version = true := by
    rw [shouldUseLZ4]
    by_cases hv : version = 1
    · rw [if_pos hv]
    · rw [if_neg hv]; exact hloop
  refine ⟨hsel, ?_⟩
  unfold createSnapshot
  rw [if_pos hsel]

/-- C1 witness: the amended rule evaluated with the 150 MiB file listed
first. -/
theorem C1_first_trigger_full_witness :
    shouldUseLZ4 [⟨"big.bin".toList, 150 * 1024 * 1024⟩,
                  ⟨"a.bin".toList, 60 * 1024 * 1024 + 1⟩] 2 = true ∧
    createSnapshot [⟨"big.bin".toList, 150 * 1024 * 1024⟩,
                    ⟨"a.bin".toList, 60 * 1024 * 1024 + 1⟩]
      2 1 fsC1 (.ok deltaResC1) (.ok lz4ResC1) = (.ok lz4ResC1, false) :=
  C1_first_trigger_full _ 2 1 fsC1 (.ok deltaResC1) (.ok lz4ResC1)
    ⟨"big.bin".toList, 150 * 1024 * 1024⟩ (by decide) (by decide)

/-- C4: after a successful delta computation, the post-hoc acceptance
rule of createSnapshot: a ratio above the 0.95 threshold removes the
delta artifact (the Bool component) and resolves the commit through the
LZ4 full-snapshot fallback, no error arising from the ratio itself; a
ratio at most 0.95 retains and returns the delta result. -/
theorem C4_posthoc_acceptance (files : List StagedFile) (version prevVersion : ℕ)
    (fs : RepoFS) (d : CompressionResult) (lz4Outcome : Except Bytes CompressionResult)
    (hsel : shouldUseLZ4 files version = false)
    (hver : version > 1)
    (hchain : shouldCreateNewSnapshot fs prevVersion = false) :
    (CompressionThreshold < d.compressionRatioQ →
      createSnapshot files version prevVersion fs (.ok d) lz4Outcome
        = (lz4Outcome, true)) ∧
    (d.compressionRatioQ ≤ CompressionThreshold →
      createSnapshot files version prevVersion fs (.ok d) lz4Outcome
        = (.ok d, false)) := by
  constructor
  · intro hr
    unfold createSnapshot
    rw [if_neg (by rw [hsel]; exact Bool.false_ne_true),
      if_pos (And.intro hver (by rw [hchain]; exact Bool.false_ne_true))]
    dsimp only
    rw [if_neg (not_le.mpr hr)]
  · intro hr
    unfold createSnapshot
    rw [if_neg (by rw [hsel]; exact Bool.false_ne_true),
      if_pos (And.intro hver (by rw [hchain]; exact Bool.false_ne_true))]
    dsimp only
    rw [if_pos hr]

/-- C4 witness: both branches of the acceptance rule evaluated at
concrete delta results with ratios 0.96 and 0.5. -/
theorem C4_posthoc_acceptance_witness :
    createSnapshot [⟨"a.psd".toList, 1024⟩] 2 1 fsC1
      (.ok { deltaResC1 with compressionRatioQ := 24 / 25 }) (.ok lz4ResC1)
      = (.ok lz4ResC1, true) ∧
    createSnapshot [⟨"a.psd".toList, 1024⟩] 2 1 fsC1
      (.ok deltaResC1) (.ok lz4ResC1) = (.ok deltaResC1, false) := by
  constructor
  · exact (C4_posthoc_acceptance [⟨"a.psd".toList, 1024⟩] 2 1 fsC1
      { deltaResC1 with compressionRatioQ := 24 / 25 } (.ok lz4ResC1)
      (by decide) (by norm_num) (by decide)).1 (by norm_num [CompressionThreshold])
  · exact (C4_posthoc_acceptance [⟨"a.psd".toList, 1024⟩] 2 1 fsC1
      deltaResC1 (.ok lz4ResC1)
      (by decide) (by norm_num) (by decide)).2 (by norm_num [CompressionThreshold, deltaResC1])

/-! ## C3: delta chain length bound -/

theorem chainLengthSpec_le (fs : RepoFS) : ∀ v, chainLengthSpec fs v ≤ getDeltaChainLength fs v := by
  intro v
  induction v with
  | zero => exact le_rfl
  | succ v ih =>
    rw [chainLengthSpec, getDeltaChainLength]
    by_cases hz : fs.legacyZip (v + 1) = true
    · rw [if_pos (by rw [hz, Bool.or_true])]
      exact Nat.zero_le _
    · rw [if_neg hz]
      by_cases hl : fs.lz4Snapshot (v + 1) = true
      · rw [if_pos (by rw [hl, Bool.true_or])]
        exact Nat.zero_le _
      · rw [if_neg (by simp [hl, hz])]
        omega

theorem chainLengthSpec_addDelta (fs : RepoFS) (n : ℕ) :
    ∀ v, chainLengthSpec (fs.addDelta n) v = chainLengthSpec fs v := by
  intro v
  induction v with
  | zero => rfl
  | succ v ih =>
    rw [chainLengthSpec, chainLengthSpec]
    rw [show (fs.addDelta n).lz4Snapshot = fs.lz4Snapshot from rfl,
      show (fs.addDelta n).legacyZip = fs.legacyZip from rfl, ih]

/-- C3: the claim fails on the code in its description of the chain
length computation: with an lz4 full snapshot at version 1 and a delta
at version 2, the delta-hop distance from version 2 to the most recent
full snapshot of a supported form is 1, but getDeltaChainLength returns
2 because it only stops at legacy objects zip snapshots, which the
active write path never creates. -/
theorem C3_counterexample :
    getDeltaChainLength fsC3 2 = 2 ∧ chainLengthSpec fsC3 2 = 1 ∧
    getDeltaChainLength fsC3 2 ≠ chainLengthSpec fsC3 2 := by
  refine ⟨by decide, by decide, by decide⟩

/-- C3 (amended): the chain length computation counts versions down to
the most recent legacy zip snapshot only, so it over-approximates the
delta-hop distance to the nearest full snapshot of any supported form;
once the computed length for the previous version reaches
MaxDeltaChainLength the next commit resolves through the LZ4 full
snapshot path, and consequently the true delta-hop distance of the new
head stays at most MaxDeltaChainLength after any commit: it becomes zero
when the commit stores a full snapshot and grows by at most one from a
value below the bound when it stores a delta. -/
theorem C3_chain_bound (fs : RepoFS) (files : List StagedFile) (prev : ℕ)
    (deltaOutcome lz4Outcome : Except Bytes CompressionResult) :
    (∀ v, chainLengthSpec fs v ≤ getDeltaChainLength fs v) ∧
    (shouldCreateNewSnapshot fs prev = true →
      createSnapshot files (prev + 1) prev fs deltaOutcome lz4Outcome
        = (lz4Outcome, false) ∨
      createSnapshot files (prev + 1) prev fs deltaOutcome lz4Outcome
        = (lz4Outcome, true)) ∧
    (shouldCreateNewSnapshot fs prev = false →
      fs.lz4Snapshot (prev + 1) = false → fs.legacyZip (prev + 1) = false →
      chainLengthSpec (fs.addDelta (prev + 1)) (prev + 1) ≤ MaxDeltaChainLength) ∧
    (chainLengthSpec (fs.addLz4 (prev + 1)) (prev + 1) = 0) := by
  refine ⟨chainLengthSpec_le fs, ?_, ?_, ?_⟩
  · intro hchain
    unfold createSnapshot
    by_cases hsel : shouldUseLZ4 files (prev + 1) = true
    · left; rw [if_pos hsel]
    · left
      rw [if_neg hsel, if_neg]
      intro hand
      exact hand.2 hchain
  · intro hchain hlz hzz
    rw [chainLengthSpec,
      if_neg (by
        show ¬((fs.addDelta (prev + 1)).lz4Snapshot (prev + 1)
          || (fs.addDelta (prev + 1)).legacyZip (prev + 1)) = true
        show ¬(fs.lz4Snapshot (prev + 1) || fs.legacyZip (prev + 1)) = true
        rw [hlz, hzz]
        exact Bool.false_ne_true),
      chainLengthSpec_addDelta fs (prev + 1) prev]
    have h1 : getDeltaChainLength fs prev < MaxDeltaChainLength := by
      by_contra hcon
      rw [shouldCreateNewSnapshot] at hchain
      simp only [decide_eq_false_iff_not, not_le] at hchain
      omega
    have h2 := chainLengthSpec_le fs prev
    omega
  · rw [chainLengthSpec]
    rw [if_pos (by
      show ((fs.addLz4 (prev + 1)).lz4Snapshot (prev + 1)
        || (fs.addLz4 (prev + 1)).legacyZip (prev + 1)) = true
      show ((decide (prev + 1 = prev + 1) || fs.lz4Snapshot (prev + 1))
        || fs.legacyZip (prev + 1)) = true
      simp)]

/-- C3 witness: the amended statement evaluated at the concrete state
fsC3 with prev Version 2. -/
theorem C3_chain_bound_witness :
    (∀ v, chainLengthSpec fsC3 v ≤ getDeltaChainLength fsC3 v) ∧
    chainLengthSpec (fsC3.addDelta 3) 3 ≤ MaxDeltaChainLength ∧
    chainLengthSpec (fsC3.addLz4 3) 3 = 0 := by
  have h := C3_chain_bound fsC3 [] 2 (.error []) (.error [])
  exact ⟨h.1, h.2.2.1 (by decide) (by decide) (by decide), h.2.2.2⟩

/-! ## C6: snapshot writer validation -/

/-- C6: the snapshot writer fails exactly when the summed input size is
zero, or the output exceeds 1.2 times the input, or the output is empty;
in every failing case the written output file is removed before the
error returns, and otherwise the write succeeds with ratio output size
over input size. -/
theorem C6_writer_validation (reads : List (Bytes × Option Bytes)) (version : ℕ)
    (lz4 : Bytes → Bytes) (sIn sOut : ℕ)
    (hIn : sIn = ((readOkFiles reads).map (fun r => r.2.length)).sum)
    (hOut : sOut = (lz4 (encodeStream (readOkFiles reads))).length) :
    ((∃ e, (compressWithLZ4 reads version lz4).1 = .error e)
      ↔ (sIn = 0 ∨ (sOut : ℚ) > 6 / 5 * (sIn : ℚ) ∨ sOut = 0)) ∧
    ((sIn = 0 ∨ (sOut : ℚ) > 6 / 5 * (sIn : ℚ) ∨ sOut = 0)
      → (compressWithLZ4 reads version lz4).2 = true) ∧
    (¬(sIn = 0 ∨ (sOut : ℚ) > 6 / 5 * (sIn : ℚ) ∨ sOut = 0)
      → (compressWithLZ4 reads version lz4).2 = false ∧
        (compressWithLZ4 reads version lz4).1
          = .ok { strategy := "lz4".toList
                  outputFile := 'v' :: decRepr version ++ ".lz4".toList
                  originalSize := (sIn : Int)
                  compressedSize := (sOut : Int)
                  compressionRatioQ := (sOut : ℚ) / (sIn : ℚ)
                  baseVersion := 0 }) := by
  unfold compressWithLZ4
  dsimp only
  rw [← hIn, ← hOut]
  by_cases h0 : sIn = 0
  · rw [if_pos h0]
    refine ⟨⟨fun _ => Or.inl h0, fun _ => ⟨_, rfl⟩⟩, fun _ => rfl, fun hc => absurd (Or.inl h0) hc⟩
  · rw [if_neg h0]
    have hpos : (0 : ℚ) < (sIn : ℚ) := by
      exact_mod_cast Nat.pos_of_ne_zero h0
    have hdiv : ((sOut : ℚ) / (sIn : ℚ) > 6 / 5) ↔ ((sOut : ℚ) > 6 / 5 * (sIn : ℚ)) := by
      rw [gt_iff_lt, lt_div_iff₀ hpos]
    by_cases h1 : (sOut : ℚ) / (sIn : ℚ) > 6 / 5
    · rw [if_pos h1]
      exact ⟨⟨fun _ => Or.inr (Or.inl (hdiv.mp h1)), fun _ => ⟨_, rfl⟩⟩,
        fun _ => rfl, fun hc => absurd (Or.inr (Or.inl (hdiv.mp h1))) hc⟩
    · rw [if_neg h1]
      by_cases h2 : sOut = 0
      · rw [if_pos h2]
        exact ⟨⟨fun _ => Or.inr (Or.inr h2), fun _ => ⟨_, rfl⟩⟩,
          fun _ => rfl, fun hc => absurd (Or.inr (Or.inr h2)) hc⟩
      · rw [if_neg h2]
        refine ⟨⟨fun he => ?_, fun hc => ?_⟩, fun hc => ?_, fun _ => ⟨rfl, rfl⟩⟩
        · obtain ⟨e, he⟩ := he
          exact absurd he (by simp)
        · rcases hc with hc | hc | hc
          · exact absurd hc h0
          · exact absurd (hdiv.mpr hc) h1
          · exact absurd hc h2
        · rcases hc with hc | hc | hc
          · exact absurd hc h0
          · exact absurd (hdiv.mpr hc) h1
          · exact absurd hc h2

/-- C6 witness: a successful write at a one-byte-output compressor over
a two-byte file, and a failing write over no readable data. -/
theorem C6_writer_validation_witness :
    (compressWithLZ4 [("a".toList, some "hi".toList)] 1 (fun _ => ['x'])).1
      = .ok { strategy := "lz4".toList
              outputFile := 'v' :: decRepr 1 ++ ".lz4".toList
              originalSize := 2
              compressedSize := 1
              compressionRatioQ := (1 : ℚ) / (2 : ℚ)
              baseVersion := 0 } ∧
    (compressWithLZ4 [("a".toList, Option.none)] 1 (fun _ => ['x'])).2 = true := by
  constructor
  · have h := (C6_writer_validation [("a".toList, some "hi".toList)] 1
      (fun _ => ['x']) 2 1 (by decide) (by decide)).2.2 (by norm_num)
    exact h.2
  · exact (C6_writer_validation [("a".toList, Option.none)] 1
      (fun _ => ['x']) 0 1 (by decide) (by decide)).2.1 (Or.inl rfl)

/-! ## C2 and C10: restoration planning and snapshot hashes -/

theorem execPatchSteps_mem : ∀ (rest : List RestorationStep) (ops : List RestoreOp),
    execPatchSteps rest = .ok ops → ∀ w : ℕ,
    (⟨"psd_smart".toList, w⟩ : RestorationStep) ∈ rest →
    RestoreOp.bspatch "psd_smart".toList w ∈ ops := by
  intro rest
  induction rest with
  | nil => intro ops _ w hw; simp at hw
  | cons s rest ih =>
    intro ops hok w hw
    rw [execPatchSteps] at hok
    rcases List.mem_cons.mp hw with hw | hw
    · have hst : s.type = "psd_smart".toList := by rw [← hw]
      have hver : s.version = w := by rw [← hw]
      have hsb : ¬ s.type = "bsdiff".toList := by rw [hst]; decide
      rw [if_neg hsb, if_pos hst] at hok
      cases hrest : execPatchSteps rest with
      | error e => rw [hrest] at hok; exact absurd hok (by simp [Except.map])
      | ok ops2 =>
        rw [hrest] at hok
        simp only [Except.map, Except.ok.injEq] at hok
        subst hok
        rw [← hver]
        exact List.mem_cons_self _ _
    · by_cases hb : s.type = "bsdiff".toList
      · rw [if_pos hb] at hok
        cases hrest : execPatchSteps rest with
        | error e => rw [hrest] at hok; exact absurd hok (by simp [Except.map])
        | ok ops2 =>
          rw [hrest] at hok
          simp only [Except.map, Except.ok.injEq] at hok
          subst hok
          exact List.mem_cons_of_mem _ (ih ops2 hrest w hw)
      · rw [if_neg hb] at hok
        by_cases hp : s.type = "psd_smart".toList
        · rw [if_pos hp] at hok
          cases hrest : execPatchSteps rest with
          | error e => rw [hrest] at hok; exact absurd hok (by simp [Except.map])
          | ok ops2 =>
            rw [hrest] at hok
            simp only [Except.map, Except.ok.injEq] at hok
            subst hok
            exact List.mem_cons_of_mem _ (ih ops2 hrest w hw)
        · rw [if_neg hp] at hok
          by_cases hx : s.type = "xdelta3".toList
          · rw [if_pos hx] at hok; exact absurd hok (by simp)
          · rw [if_neg hx] at hok; exact absurd hok (by simp)

/-- C2: the claim fails on the code.  With a psd_smart delta artifact
for version 2, the planner does not terminate at it: the plan contains a
step for version 1 as well, and the executor applies the psd_smart
artifact with bspatch against the version 1 materialization rather than
restoring it as a full replacement. -/
theorem C2_counterexample :
    findRestorationPath fsC2 2
      = .ok [⟨"lz4".toList, 1⟩, ⟨"psd_smart".toList, 2⟩] ∧
    (⟨"lz4".toList, 1⟩ : RestorationStep)
      ∈ [(⟨"lz4".toList, 1⟩ : RestorationStep), ⟨"psd_smart".toList, 2⟩] ∧
    executeRestorationPath [⟨"lz4".toList, 1⟩, ⟨"psd_smart".toList, 2⟩]
      = .ok [RestoreOp.convertLZ4ToZip 1, RestoreOp.bspatch "psd_smart".toList 2] := by
  refine ⟨by decide, by decide, by decide⟩

/-- C2 (amended): when the planner reaches a version whose only artifact
is the psd_smart delta, it records the artifact as a patch step and
recurses on the previous version, and at execute time every psd_smart
step after the base is applied as a bsdiff binary patch to the previous
materialization. -/
theorem C2_psd_smart_recurses (fs : RepoFS) (v : ℕ)
    (h1 : fs.lz4Snapshot (v + 1) = false) (h2 : fs.legacyZip (v + 1) = false)
    (h3 : fs.bsdiffDelta (v + 1) = false) (h4 : fs.psdSmartDelta (v + 1) = true) :
    locateSteps fs (v + 1)
      = (locateSteps fs v).map (fun p => p ++ [⟨"psd_smart".toList, v + 1⟩]) ∧
    (∀ (base : RestorationStep) (rest : List RestorationStep) (ops : List RestoreOp),
      executeRestorationPath (base :: rest) = .ok ops → ∀ w : ℕ,
      (⟨"psd_smart".toList, w⟩ : RestorationStep) ∈ rest →
      RestoreOp.bspatch "psd_smart".toList w ∈ ops) := by
  constructor
  · rw [locateSteps,
      if_neg (by rw [h1]; exact Bool.false_ne_true),
      if_neg (by rw [h2]; exact Bool.false_ne_true),
      if_neg (by rw [h3]; exact Bool.false_ne_true),
      if_pos h4]
  · intro base rest ops hok w hw
    rw [executeRestorationPath] at hok
    by_cases hb : base.type = "lz4".toList
    · rw [if_pos hb] at hok
      cases hrest : execPatchSteps rest with
      | error e => rw [hrest] at hok; exact absurd hok (by simp [Except.map])
      | ok ops2 =>
        rw [hrest] at hok
        simp only [Except.map, Except.ok.injEq] at hok
        subst hok
        exact List.mem_cons_of_mem _ (execPatchSteps_mem rest ops2 hrest w hw)
    · rw [if_neg hb] at hok
      by_cases hz : base.type = "zip".toList
      · rw [if_pos hz] at hok
        cases hrest : execPatchSteps rest with
        | error e => rw [hrest] at hok; exact absurd hok (by simp [Except.map])
        | ok ops2 =>
          rw [hrest] at hok
          simp only [Except.map, Except.ok.injEq] at hok
          subst hok
          exact List.mem_cons_of_mem _ (execPatchSteps_mem rest ops2 hrest w hw)
      · rw [if_neg hz] at hok
        exact absurd hok (by simp)

/-- C2 witness: the amended statement evaluated at fsC2. -/
theorem C2_psd_smart_recurses_witness :
    locateSteps fsC2 2
      = (locateSteps fsC2 1).map (fun p => p ++ [⟨"psd_smart".toList, 2⟩]) ∧
    RestoreOp.bspatch "psd_smart".toList 2
      ∈ [RestoreOp.convertLZ4ToZip 1, RestoreOp.bspatch "psd_smart".toList 2] := by
  have h := C2_psd_smart_recurses fsC2 1 (by decide) (by decide) (by decide) (by decide)
  refine ⟨h.1, ?_⟩
  exact h.2 ⟨"lz4".toList, 1⟩ [⟨"psd_smart".toList, 2⟩]
    [RestoreOp.convertLZ4ToZip 1, RestoreOp.bspatch "psd_smart".toList 2]
    (by decide) 2 (by decide)

/-- C10: GetSnapshotFileHashes returns an empty map and no error both
when the commit record cannot be loaded and when the loaded record
carries neither a usable compression_info strategy nor a legacy
snapshot_zip value. -/
theorem C10_empty_map_no_error (commitLoad : Except Bytes CommitRec)
    (lz4Extract zipExtract chainExtract legacyZipExtract :
      Except Bytes (List (Bytes × Bytes))) :
    ((∃ e, commitLoad = .error e) →
      GetSnapshotFileHashes commitLoad lz4Extract zipExtract chainExtract
        legacyZipExtract = .ok []) ∧
    (∀ c, commitLoad = .ok c → c.compressionInfo = Option.none → c.snapshotZip = [] →
      GetSnapshotFileHashes commitLoad lz4Extract zipExtract chainExtract
        legacyZipExtract = .ok []) := by
  constructor
  · intro ⟨e, he⟩
    rw [he, GetSnapshotFileHashes]
  · intro c hc hci hsz
    rw [hc]
    simp [GetSnapshotFileHashes, hci, hsz]

/-- C10 witness: both cases evaluated at concrete commit records. -/
theorem C10_empty_map_no_error_witness :
    GetSnapshotFileHashes (.error "no commit".toList)
      (.ok []) (.ok []) (.ok []) (.ok []) = .ok [] ∧
    GetSnapshotFileHashes
      (.ok { hash := "abc".toList, message := [], author := [], filesCount := 1
             version := 3, parentHash := [], snapshotZip := []
             compressionInfo := Option.none })
      (.ok []) (.ok []) (.ok []) (.ok []) = .ok [] := by
  constructor
  · exact (C10_empty_map_no_error (.error "no commit".toList)
      (.ok []) (.ok []) (.ok []) (.ok [])).1 ⟨_, rfl⟩
  · exact (C10_empty_map_no_error _ (.ok []) (.ok []) (.ok []) (.ok [])).2
      _ rfl rfl rfl

/-! ## C7: version numbering -/

theorem goAtoi_decRepr (m : ℕ) : goAtoi (decRepr m) = (m : ℤ) := by
  obtain ⟨c, cs, hcons⟩ := List.exists_cons_of_ne_nil (decRepr_ne_nil m)
  have hdig : isDigitB c = true :=
    decRepr_all_digits c (by rw [hcons]; exact List.mem_cons_self c cs)
  have hm : ¬ c = '-' := by
    intro hc; rw [hc] at hdig; exact absurd hdig (by decide)
  have hp : ¬ c = '+' := by
    intro hc; rw [hc] at hdig; exact absurd hdig (by decide)
  rw [hcons, goAtoi, if_neg hm, if_neg hp, ← hcons, parseDec_decRepr]

theorem commitEntryName_group (m : ℕ) :
    commitEntryName m = ('v' :: decRepr m) ++ ".json".toList := rfl

theorem commitEntryName_starts_v (m : ℕ) :
    hasPrefixB "v".toList (commitEntryName m) = true := by
  simp only [hasPrefixB, commitEntryName, decide_eq_true_eq]
  rfl

theorem commitEntryName_suffix (m : ℕ) :
    hasSuffixB ".json".toList (commitEntryName m) = true := by
  have hlen2 : (('v' :: decRepr m) ++ ".json".toList).length
      = ('v' :: decRepr m).length + 5 := by simp
  have h5 : (".json".toList).length = 5 := by decide
  simp only [hasSuffixB, Bool.and_eq_true, decide_eq_true_eq]
  constructor
  · rw [commitEntryName_group, hlen2, h5]
    omega
  · rw [commitEntryName_group, hlen2, h5, Nat.add_sub_cancel]
    exact List.drop_left _ _

theorem commitEntryName_middle (m : ℕ) :
    (((commitEntryName m).drop 1).take (((commitEntryName m).drop 1).length - 5))
      = decRepr m := by
  rw [commitEntryName_group]
  have hdrop : List.drop 1 (('v' :: decRepr m) ++ ".json".toList)
      = decRepr m ++ ".json".toList := rfl
  rw [hdrop]
  have hlen3 : (decRepr m ++ ".json".toList).length = (decRepr m).length + 5 := by simp
  rw [hlen3, Nat.add_sub_cancel]
  exact List.take_left _ _

theorem getCurrentVersionOf_append_entry (es : List Bytes) (m : ℕ) :
    getCurrentVersionOf (es ++ [commitEntryName m])
      = max (getCurrentVersionOf es) (m : ℤ) := by
  rw [getCurrentVersionOf, List.foldl_append]
  rw [← getCurrentVersionOf]
  rw [List.foldl_cons, List.foldl_nil]
  rw [commitEntryName_starts_v, commitEntryName_suffix]
  simp only [Bool.and_self, if_pos]
  rw [commitEntryName_middle, goAtoi_decRepr]
  by_cases h : (m : ℤ) > getCurrentVersionOf es
  · rw [if_pos h, max_eq_right (le_of_lt h)]
  · rw [if_neg h, max_eq_left (not_lt.mp h)]

/-- C7: starting from an empty repository, after k commits the commit
records are exactly v1.json through vk.json in order (no gaps), the
directory scan of GetCurrentVersion yields k, and CreateCommit assigns
k + 1 = (maximum existing version) + 1 to the next commit; in particular
the first commit receives version 1. -/
theorem C7_version_numbering : ∀ k : ℕ,
    commitsDirAfter k = (List.range k).map (fun i => commitEntryName (i + 1)) ∧
    getCurrentVersionOf (commitsDirAfter k) = (k : ℤ) ∧
    assignedVersion (commitsDirAfter k) = (k : ℤ) + 1 := by
  intro k
  induction k with
  | zero => refine ⟨rfl, rfl, rfl⟩
  | succ k ih =>
    obtain ⟨hdir, hgcv, hassign⟩ := ih
    have hnat : (assignedVersion (commitsDirAfter k)).toNat = k + 1 := by
      rw [hassign]; simp
    have hstep : commitsDirAfter (k + 1)
        = commitsDirAfter k ++ [commitEntryName (k + 1)] := by
      rw [commitsDirAfter]
      rw [hnat]
    have hdir2 : commitsDirAfter (k + 1)
        = (List.range (k + 1)).map (fun i => commitEntryName (i + 1)) := by
      rw [hstep, hdir, List.range_succ, List.map_append]
      rfl
    have hgcv2 : getCurrentVersionOf (commitsDirAfter (k + 1)) = ((k + 1 : ℕ) : ℤ) := by
      rw [hstep, getCurrentVersionOf_append_entry, hgcv]
      push_cast
      exact max_eq_right (by omega)
    refine ⟨hdir2, hgcv2, ?_⟩
    rw [assignedVersion, hgcv2]

/-- C7 witness: the first three commits receive versions 1, 2, 3 with
records v1.json, v2.json, v3.json, and the fourth would receive 4. -/
theorem C7_version_numbering_witness :
    commitsDirAfter 3 = [commitEntryName 1, commitEntryName 2, commitEntryName 3] ∧
    assignedVersion (commitsDirAfter 3) = 4 := by
  have h := C7_version_numbering 3
  refine ⟨?_, ?_⟩
  · rw [h.1]; decide
  · rw [h.2.2]; decide

/-! ## C8 and C9: layered-document change analyzer -/

theorem layerMapLookup_eq_lastByName (o : List DetailedLayer) (nm : Bytes) :
    layerMapLookup o nm = lastByName o nm := by
  have key : ∀ (t : List DetailedLayer) (acc : Option DetailedLayer),
      t.foldl (fun a l => if l.name = nm then some l else a) acc
        = match t.reverse.find? (fun l => l.name = nm) with
          | some x => some x
          | Option.none => acc := by
    intro t
    induction t with
    | nil => intro acc; simp
    | cons h t ih =>
      intro acc
      rw [List.foldl_cons, ih, List.reverse_cons, List.find?_append]
      cases hft : t.reverse.find? (fun l => l.name = nm) with
      | some x => simp
      | none =>
        simp only [Option.none_orElse]
        rw [List.find?_cons]
        by_cases hh : h.name = nm
        · simp [hh]
        · simp [hh]
  rw [layerMapLookup, key o Option.none, lastByName]
  cases o.reverse.find? (fun l => l.name = nm) <;> rfl

theorem layerMapLookup_none_iff (o : List DetailedLayer) (nm : Bytes) :
    layerMapLookup o nm = Option.none ↔ ¬ nm ∈ o.map (fun l => l.name) := by
  rw [layerMapLookup_eq_lastByName, lastByName, List.find?_eq_none]
  constructor
  · intro h hmem
    obtain ⟨l, hl, hln⟩ := List.mem_map.mp hmem
    have := h l (List.mem_reverse.mpr hl)
    simp [hln] at this
  · intro h l hl
    simp only [decide_eq_true_eq]
    intro hln
    exact h (List.mem_map.mpr ⟨l, List.mem_reverse.mp hl, hln⟩)

theorem isNone_lookup_eq_decide (o : List DetailedLayer) (nm : Bytes) :
    (layerMapLookup o nm).isNone = decide (¬ nm ∈ o.map (fun l => l.name)) := by
  cases hl : layerMapLookup o nm with
  | none =>
    have h := (layerMapLookup_none_iff o nm).mp hl
    simp [h]
  | some x =>
    have h : nm ∈ o.map (fun l => l.name) := by
      by_contra hc
      rw [(layerMapLookup_none_iff o nm).mpr hc] at hl
      exact Option.noConfusion hl
    simp [h]

theorem filterMap_guard_eq_filter_map {α β : Type} (l : List α) (p : α → Bool) (g : α → β) :
    l.filterMap (fun x => if p x then some (g x) else Option.none)
      = (l.filter p).map g := by
  induction l with
  | nil => rfl
  | cons a l ih =>
    rw [List.filterMap_cons, List.filter_cons]
    by_cases hp : p a = true
    · rw [hp]
      simp only [if_pos rfl, if_true]
      rw [List.map_cons, ih]
    · rw [Bool.not_eq_true] at hp
      rw [hp]
      simp only [Bool.false_eq_true, if_false]
      exact ih

theorem filterMap_pointwise {α β : Type} (l : List α) (f g : α → Option β)
    (h : ∀ x ∈ l, f x = g x) : l.filterMap f = l.filterMap g := by
  induction l with
  | nil => rfl
  | cons a l ih =>
    rw [List.filterMap_cons, List.filterMap_cons,
      h a (List.mem_cons_self a l),
      ih (fun x hx => h x (List.mem_cons_of_mem a hx))]

theorem compareLayerVersions_eq_specLast (o n : List DetailedLayer) :
    compareLayerVersions o n = specAnalysisWith lastByName o n := by
  unfold compareLayerVersions specAnalysisWith
  dsimp only
  have hadded : n.filterMap (fun l =>
      if (layerMapLookup o l.name).isNone then some (mkAddedChange l) else Option.none)
      = (n.filter (fun l => ¬ l.name ∈ o.map (fun x => x.name))).map mkAddedChange := by
    rw [filterMap_guard_eq_filter_map n (fun l => (layerMapLookup o l.name).isNone)
      mkAddedChange]
    congr 1
    apply List.filter_congr
    intro l _
    exact isNone_lookup_eq_decide o l.name
  have hdeleted : o.filterMap (fun l =>
      if (layerMapLookup n l.name).isNone then some (mkDeletedChange l) else Option.none)
      = (o.filter (fun l => ¬ l.name ∈ n.map (fun x => x.name))).map mkDeletedChange := by
    rw [filterMap_guard_eq_filter_map o (fun l => (layerMapLookup n l.name).isNone)
      mkDeletedChange]
    congr 1
    apply List.filter_congr
    intro l _
    exact isNone_lookup_eq_decide n l.name
  have hchanged : n.filterMap (fun l =>
      match layerMapLookup o l.name with
      | some ol =>
        if ol.contentHash ≠ l.contentHash then some (mkModifiedChange ol l) else Option.none
      | Option.none => Option.none)
      = n.filterMap (fun l =>
        (lastByName o l.name).bind (fun ol =>
          if ol.contentHash ≠ l.contentHash then some (mkModifiedChange ol l)
          else Option.none)) := by
    apply filterMap_pointwise
    intro l _
    rw [← layerMapLookup_eq_lastByName]
    cases layerMapLookup o l.name <;> rfl
  rw [hadded, hdeleted, hchanged]

theorem firstByName_eq_lastByName (o : List DetailedLayer)
    (hnd : (o.map (fun l => l.name)).Nodup) (nm : Bytes) :
    firstByName o nm = lastByName o nm := by
  induction o with
  | nil => rfl
  | cons h t ih =>
    rw [List.map_cons, List.nodup_cons] at hnd
    obtain ⟨hmem, hnd2⟩ := hnd
    rw [firstByName, List.find?_cons, lastByName, List.reverse_cons, List.find?_append]
    by_cases hh : h.name = nm
    · have hd : decide (h.name = nm) = true := by simp [hh]
      rw [hd]
      have hnone : t.reverse.find? (fun l => l.name = nm) = Option.none := by
        rw [List.find?_eq_none]
        intro x hx
        simp only [decide_eq_true_eq]
        intro hxn
        exact hmem (List.mem_map.mpr ⟨x, List.mem_reverse.mp hx, by rw [hxn, hh]⟩)
      have hsing : [h].find? (fun l => decide (l.name = nm)) = some h := by
        rw [List.find?_cons, hd]
      rw [hnone, hsing]
      rfl
    · have hd : decide (h.name = nm) = false := by simp [hh]
      rw [hd]
      have hsing : [h].find? (fun l => decide (l.name = nm)) = Option.none := by
        rw [List.find?_cons, hd]
        rfl
      rw [hsing]
      have hor : ∀ x : Option DetailedLayer, x.or Option.none = x := by
        intro x; cases x <;> rfl
      rw [hor]
      exact ih hnd2

theorem specAnalysisWith_firstLast (o n : List DetailedLayer)
    (hnd : (o.map (fun l => l.name)).Nodup) :
    specAnalysisWith firstByName o n = specAnalysisWith lastByName o n := by
  unfold specAnalysisWith
  dsimp only
  have hc : n.filterMap (fun l =>
      (firstByName o l.name).bind (fun ol =>
        if ol.contentHash ≠ l.contentHash then some (mkModifiedChange ol l)
        else Option.none))
      = n.filterMap (fun l =>
        (lastByName o l.name).bind (fun ol =>
          if ol.contentHash ≠ l.contentHash then some (mkModifiedChange ol l)
          else Option.none)) := by
    apply filterMap_pointwise
    intro l _
    rw [firstByName_eq_lastByName o hnd l.name]
  rw [hc]

/-- C8: for layer lists without duplicated names, the analyzer
classifies added, deleted and modified exactly as the spec describes:
added are the new layers whose name is absent from old, deleted the old
layers whose name is absent from new, modified the new layers matched by
name whose content hash differs (with property_changes recording the
old/new values of each differing property, by detectPropertyChanges),
and unchanged_count is the new total minus modified minus added.  Name
collisions are settled separately under the next claim. -/
theorem C8_change_classification (o n : List DetailedLayer)
    (hnd : (o.map (fun l => l.name)).Nodup) :
    compareLayerVersions o n = specAnalysisWith firstByName o n := by
  rw [compareLayerVersions_eq_specLast]
  exact (specAnalysisWith_firstLast o n hnd).symm

/-- C8 witness: the classification evaluated at a concrete pair of
duplicate-free layer lists with one added, one deleted, one modified and
one unchanged layer. -/
theorem C8_change_classification_witness :
    compareLayerVersions
      [⟨1, "A".toList, "h1".toList, 255, true, "normal".toList, "0,0".toList⟩,
       ⟨2, "B".toList, "h2".toList, 255, true, "normal".toList, "0,0".toList⟩,
       ⟨3, "D".toList, "h4".toList, 255, true, "normal".toList, "0,0".toList⟩]
      [⟨4, "B".toList, "h3".toList, 128, true, "normal".toList, "0,0".toList⟩,
       ⟨5, "C".toList, "h5".toList, 255, true, "normal".toList, "0,0".toList⟩,
       ⟨6, "D".toList, "h4".toList, 255, true, "normal".toList, "0,0".toList⟩]
      = specAnalysisWith firstByName
        [⟨1, "A".toList, "h1".toList, 255, true, "normal".toList, "0,0".toList⟩,
         ⟨2, "B".toList, "h2".toList, 255, true, "normal".toList, "0,0".toList⟩,
         ⟨3, "D".toList, "h4".toList, 255, true, "normal".toList, "0,0".toList⟩]
        [⟨4, "B".toList, "h3".toList, 128, true, "normal".toList, "0,0".toList⟩,
         ⟨5, "C".toList, "h5".toList, 255, true, "normal".toList, "0,0".toList⟩,
         ⟨6, "D".toList, "h4".toList, 255, true, "normal".toList, "0,0".toList⟩] :=
  C8_change_classification _ _ (by decide)

/-- C9: the claim fails on the code.  With two old layers both named L
(hashes a then b) and a new layer named L with hash b, matching by the
first occurrence would flag L as modified (hash a against b), but the
analyzer built its lookup map with Go map assignment, so the last
occurrence wins: it compares b against b and reports no modification. -/
theorem C9_counterexample :
    (compareLayerVersions oldC9 newC9).changedLayers = [] ∧
    (specAnalysisWith firstByName oldC9 newC9).changedLayers
      = [mkModifiedChange
          ⟨1, "L".toList, "a".toList, 255, true, "normal".toList, "0,0".toList⟩
          ⟨3, "L".toList, "b".toList, 255, true, "normal".toList, "0,0".toList⟩] ∧
    compareLayerVersions oldC9 newC9 ≠ specAnalysisWith firstByName oldC9 newC9 := by
  refine ⟨by decide, by decide, by decide⟩

/-- C9 (amended): on a name collision within one list the analyzer does
not fail, and it matches by the last occurrence in the list (Go map
assignment overwrites earlier entries), not the first: the analysis
always equals the spec analysis computed with last-occurrence
matching. -/
theorem C9_matching_last_occurrence (o n : List DetailedLayer) :
    compareLayerVersions o n = specAnalysisWith lastByName o n :=
  compareLayerVersions_eq_specLast o n

/-- C9 witness: the amended matching rule evaluated at the colliding
lists of the counterexample. -/
theorem C9_matching_last_occurrence_witness :
    compareLayerVersions oldC9 newC9 = specAnalysisWith lastByName oldC9 newC9 :=
  C9_matching_last_occurrence oldC9 newC9

end DGit
